import Mathlib

/-!
Shallow embedding of the subtitle/timing engine of the `brainrot` repository
(`src/utils/subtitle_handler.py`, `src/utils/ass_highlight.py`, `src/config.py`),
with theorems settling the specification claims about it.

Python floats are modelled as rationals (`ℚ`); a Python dict with possibly
missing keys is modelled as a structure of `Option` fields; a function that can
raise (direct `d[key]` indexing) returns `Option`.
-/

namespace Brainrot

/-- config.py: `WORDS_PER_LINE = 2`. -/
def WORDS_PER_LINE : Nat := 2

/-- config.py: `ASS_BASE_COLOR = "&H00FFFFFF"`. -/
def ASS_BASE_COLOR : String := "&H00FFFFFF"

/-- config.py: `ASS_HIGHLIGHT_COLOR = "&H0000FF00"`. -/
def ASS_HIGHLIGHT_COLOR : String := "&H0000FF00"

/-- A whisper word token: a dict that may lack the `"word"`, `"start"` or
`"end"` keys.  The `"end"` key is called `stop` (Lean keyword clash). -/
structure WordToken where
  word : Option String
  start : Option ℚ
  stop : Option ℚ
  deriving DecidableEq, Inhabited, Repr

/-- A whisper transcript segment: dict with optional `"words"`, `"text"`,
`"start"`, `"end"` keys. -/
structure Segment where
  words : Option (List WordToken)
  text : Option String
  start : Option ℚ
  stop : Option ℚ
  deriving DecidableEq, Inhabited, Repr

/-- One emitted SRT cue body, before the running index is attached:
start time, end time and the displayed text. -/
structure Entry where
  start : ℚ
  stop : ℚ
  text : String
  deriving DecidableEq, Repr

/-- One emitted SRT cue with its running index. -/
structure Cue where
  index : Nat
  start : ℚ
  stop : ℚ
  text : String
  deriving DecidableEq, Repr

/-- One dialogue turn from the script: `{"actor": ..., "line": ...}`. -/
structure DialogueTurn where
  actor : String
  line : String
  deriving DecidableEq, Inhabited, Repr

/-- A timing segment built by `create_segments_from_audio_files`. -/
structure CharacterSegment where
  start : ℚ
  stop : ℚ
  character : String
  text : String
  deriving DecidableEq, Repr

/-- A cue of the character-attribution track (text is the character name). -/
structure CharCue where
  index : Nat
  start : ℚ
  stop : ℚ
  character : String
  deriving DecidableEq, Repr

/-- One `Dialogue:` event line of the ASS highlight file. -/
structure AssEvent where
  start : ℚ
  stop : ℚ
  text : String
  deriving DecidableEq, Repr

/-! ### Chunking loop shared by `create_srt_file` and `generate_ass_highlight`

Python (subtitle_handler.py lines 125-134, ass_highlight.py lines 41-49):
iterate tokens with index `i`; a token that is not a dict or lacks `"word"`
is skipped with `continue`; otherwise it is appended to the current chunk,
and the chunk is flushed when it reaches `WORDS_PER_LINE` or `i` is the last
index.  `i == len(words) - 1` holds exactly when no tokens remain, so the
embedding tests the remainder list instead of carrying the index.  Tokens
left in the accumulator when the loop ends (possible only when the last
token was skipped) are dropped. -/
def wordLineChunks (cur : List WordToken) : List WordToken → List (List WordToken)
  | [] => []
  | w :: rest =>
    if w.word = none then wordLineChunks cur rest
    else
      let cur2 := cur ++ [w]
      if cur2.length = WORDS_PER_LINE ∨ rest = [] then
        cur2 :: wordLineChunks [] rest
      else
        wordLineChunks cur2 rest

/-- subtitle_handler.py lines 135-143: a chunk's raw start/end.  If some chunk
member lacks `"start"` or `"end"`, fall back to the segment's times
(`segment.get("start", 0)`, `segment.get("end", start + 1)`); otherwise use the
first member's start and the last member's end. -/
def chunkTimes (seg : Segment) (chunk : List WordToken) : ℚ × ℚ :=
  if ¬ (chunk.all fun w => w.start.isSome && w.stop.isSome) then
    let s := seg.start.getD 0
    (s, seg.stop.getD (s + 1))
  else
    (((chunk.headD default).start).getD 0, ((chunk.getLastD default).stop).getD 0)

/-- Python `str.strip()` with no argument: remove leading and trailing
whitespace. -/
def pyStrip (s : String) : String :=
  String.mk ((s.data.dropWhile Char.isWhitespace).reverse.dropWhile Char.isWhitespace).reverse

/-- subtitle_handler.py line 135: `" ".join(w["word"].strip() for w in chunk
if isinstance(w, dict) and "word" in w)`. -/
def chunkText (chunk : List WordToken) : String :=
  String.intercalate " " (chunk.filterMap fun w => w.word.map pyStrip)

/-- subtitle_handler.py lines 135-147: the cue body emitted for one word chunk,
applying the 0.5 s minimum-duration floor. -/
def lineEntryOfChunk (seg : Segment) (chunk : List WordToken) : Entry :=
  let p := chunkTimes seg chunk
  let s := p.1
  let e := if p.2 - s < 1/2 then s + 1/2 else p.2
  { start := s, stop := e, text := chunkText chunk }

/-- Loop of `pySplit`, accumulating the current word in reverse. -/
def pySplitAux : List Char → List Char → List String
  | cur, [] => if cur = [] then [] else [String.mk cur.reverse]
  | cur, c :: rest =>
    if c.isWhitespace then
      if cur = [] then pySplitAux [] rest
      else String.mk cur.reverse :: pySplitAux [] rest
    else pySplitAux (c :: cur) rest

/-- Python `str.split()` with no argument: split on whitespace runs,
discarding empty pieces. -/
def pySplit (s : String) : List String :=
  pySplitAux [] s.data

/-- The index sequence of Python `range(0, n, step)`: `0, step, 2*step, ...`
strictly below `n` (for `step > 0` there are `⌈n / step⌉` of them). -/
def pyRange (n step : Nat) : List Nat :=
  (List.range ((n + step - 1) / step)).map (fun c => c * step)

/-- subtitle_handler.py lines 166-183: the fallback loop
`for i in range(0, num_original_words, WORDS_PER_LINE)`, emitting one cue per
chunk `words[i : i + WORDS_PER_LINE]` of raw words with linearly interpolated
times, the 0.5 s floor, the 3.0 s cap and the final non-positive-span guard;
an empty chunk is skipped (`if not chunk_words: continue`). -/
def fallbackEntries (segStart segDur : ℚ) (n : Nat) (ws : List String) :
    List Entry :=
  (pyRange n WORDS_PER_LINE).filterMap fun i =>
    let chunk := (ws.drop i).take WORDS_PER_LINE
    if chunk = [] then none
    else
      let k := chunk.length
      let s := segStart + ((i : ℚ) / (n : ℚ)) * segDur
      let e := segStart + (((i + k : Nat) : ℚ) / (n : ℚ)) * segDur
      let d := e - s
      let e1 := if d < 1/2 then s + 1/2 else if d > 3 then s + 3 else e
      let e2 := if e1 ≤ s then s + 1/2 else e1
      some { start := s, stop := e2, text := String.intercalate " " chunk }

/-- subtitle_handler.py lines 148-165: the fallback path for a segment without
word tokens: split the raw text, derive the segment time base
(`seg_duration` repaired when non-positive), then run the chunk loop. -/
def fallbackSegmentEntries (seg : Segment) : List Entry :=
  let originalText := pyStrip (seg.text.getD "")
  let ws := pySplit originalText
  let n := ws.length
  if n = 0 then []
  else
    let segStart := seg.start.getD 0
    let segEnd := seg.stop.getD (segStart + (1/5) * (n : ℚ))
    let d0 := segEnd - segStart
    let segDur :=
      if d0 ≤ 0 then (if (1/5 : ℚ) * (n : ℚ) ≤ 0 then 1/2 else (1/5) * (n : ℚ)) else d0
    fallbackEntries segStart segDur n ws

/-- subtitle_handler.py lines 122-183: cue bodies produced for one segment by
`create_srt_file` (word path when `"words" in segment and segment["words"]`,
fallback otherwise). -/
def segmentLineEntries (seg : Segment) : List Entry :=
  match seg.words with
  | some ws => if ws ≠ [] then (wordLineChunks [] ws).map (lineEntryOfChunk seg)
               else fallbackSegmentEntries seg
  | none => fallbackSegmentEntries seg

/-- The running `subtitle_entry_index`, attached starting at `k`. -/
def addIndices (k : Nat) : List Entry → List Cue
  | [] => []
  | e :: es => { index := k, start := e.start, stop := e.stop, text := e.text } ::
      addIndices (k + 1) es

/-- subtitle_handler.py `create_srt_file`: all cues of the line-subtitle track,
indexed from 1. -/
def create_srt_file (segs : List Segment) : List Cue :=
  addIndices 1 (segs.map segmentLineEntries).flatten

/-- subtitle_handler.py lines 189-195: one word cue.  `word_info["word"]`,
`["start"]`, `["end"]` are indexed directly, so a missing key raises
(modelled as `none`); the 0.3 s floor is applied to the end time. -/
def wordEntry (w : WordToken) : Option Entry :=
  match w.word, w.start, w.stop with
  | some t, some s, some e =>
    some { start := s, stop := if e - s < 3/10 then s + 3/10 else e, text := pyStrip t }
  | _, _, _ => none

/-- The inner `for word_info in segment["words"]` loop: emit one entry per
token in order, aborting at the first token that raises. -/
def wordEntriesList : List WordToken → Option (List Entry)
  | [] => some []
  | w :: ws =>
    match wordEntry w, wordEntriesList ws with
    | some e, some es => some (e :: es)
    | _, _ => none

/-- subtitle_handler.py lines 187-196: word cues of one segment; a segment
without the `"words"` key contributes nothing. -/
def segmentWordEntries (seg : Segment) : Option (List Entry) :=
  match seg.words with
  | some ws => wordEntriesList ws
  | none => some []

/-- The outer `for segment in segments` loop of `create_word_level_srt`,
concatenating the per-segment entries, aborting at the first raise. -/
def wordLevelEntriesList : List Segment → Option (List Entry)
  | [] => some []
  | s :: ss =>
    match segmentWordEntries s, wordLevelEntriesList ss with
    | some es, some rest => some (es ++ rest)
    | _, _ => none

/-- subtitle_handler.py `create_word_level_srt`: the word-subtitle track,
indexed from 1; `none` when some token raises a `KeyError`. -/
def create_word_level_srt (segs : List Segment) : Option (List Cue) :=
  (wordLevelEntriesList segs).map (addIndices 1)

/-! ### Character attribution -/

/-- subtitle_handler.py line 61: fallback duration
`max(2.0, len(script[i]["line"]) * 0.1)`. -/
def fallbackDuration (t : DialogueTurn) : ℚ :=
  max 2 ((t.line.length : ℚ) * (1/10))

/-- subtitle_handler.py lines 41-69: walk the per-turn audio durations (the
sorted audio files' probe results, `none` when `get_audio_duration` failed)
and the script in lockstep with a running clock; `if duration:` is Python
truthiness, so a probe result of `0.0` also takes the fallback branch.
Audio files beyond the script length are skipped by the `i < len(script)`
guard. -/
def segmentsFromAudioAux (clock : ℚ) :
    List (Option ℚ) → List DialogueTurn → List CharacterSegment
  | [], _ => []
  | _ :: _, [] => []
  | d :: ds, t :: ts =>
    let dur := match d with
      | some v => if v ≠ 0 then v else fallbackDuration t
      | none => fallbackDuration t
    { start := clock, stop := clock + dur, character := t.actor, text := t.line } ::
      segmentsFromAudioAux (clock + dur) ds ts

/-- subtitle_handler.py `create_segments_from_audio_files`. -/
def create_segments_from_audio_files (durations : List (Option ℚ))
    (script : List DialogueTurn) : List CharacterSegment :=
  segmentsFromAudioAux 0 durations script

/-- Index-attaching loop of `create_character_srt_from_segments`
(`enumerate(segments, 1)`). -/
def charCuesAux (i : Nat) : List CharacterSegment → List CharCue
  | [] => []
  | s :: rest =>
    { index := i, start := s.start, stop := s.stop, character := s.character } ::
      charCuesAux (i + 1) rest

/-- subtitle_handler.py `create_character_srt_from_segments` (lines 72-83). -/
def create_character_srt_from_segments (segs : List CharacterSegment) : List CharCue :=
  charCuesAux 1 segs

/-- subtitle_handler.py lines 85-114, `create_character_srt_file`: pair
transcript segments with script turns positionally, stopping when the script
is exhausted; segment times default to `start = 0`, `end = start + 1`. -/
def charSrtFileAux (idx : Nat) : List Segment → List DialogueTurn → List CharCue
  | [], _ => []
  | _ :: _, [] => []
  | seg :: segs, t :: ts =>
    let s := seg.start.getD 0
    { index := idx, start := s, stop := seg.stop.getD (s + 1), character := t.actor } ::
      charSrtFileAux (idx + 1) segs ts

/-- subtitle_handler.py `create_character_srt_file`. -/
def create_character_srt_file (segs : List Segment) (script : List DialogueTurn) :
    List CharCue :=
  charSrtFileAux 1 segs script

/-! ### ASS highlight track (`src/utils/ass_highlight.py`) -/

/-- Python `str.replace`, on character lists: replace each non-overlapping
occurrence of `p` left to right.  The fuel argument (instantiated with the
list length) only makes the recursion structural; each step consumes at
least one character, so the fuel never runs out. -/
def pyReplaceAux (p r : List Char) : Nat → List Char → List Char
  | 0, s => s
  | _ + 1, [] => []
  | fuel + 1, a :: rest =>
    if (a :: rest).take p.length = p then
      r ++ pyReplaceAux p r fuel ((a :: rest).drop p.length)
    else
      a :: pyReplaceAux p r fuel rest

/-- Python `str.replace` on strings (our call sites never pass an empty
pattern, for which Python and this model differ). -/
def pyReplace (s pattern repl : String) : String :=
  if pattern.data = [] then s
  else String.mk (pyReplaceAux pattern.data repl.data s.data.length s.data)

/-- ass_highlight.py lines 12-14:
`text.replace('{', '\\{').replace('}', '\\}').replace('\\', '\\\\')`.
Braces are escaped first, then every backslash (including the ones just
introduced) is doubled. -/
def escape_ass_text (text : String) : String :=
  pyReplace (pyReplace (pyReplace text "\x7b" "\\\x7b") "\x7d" "\\\x7d") "\\" "\\\\"

/-- ass_highlight.py line 71: the markup wrapped around the active word,
`f"{{\\c{ASS_HIGHLIGHT_COLOR.replace('&H', '&H')}&}}{word_txt}{{\\c{ASS_BASE_COLOR.replace('&H', '&H')}&}}"`. -/
def highlightWordMarkup (wordTxt : String) : String :=
  "\x7b\\c" ++ (pyReplace ASS_HIGHLIGHT_COLOR "&H" "&H") ++ "&\x7d" ++ wordTxt ++
    "\x7b\\c" ++ (pyReplace ASS_BASE_COLOR "&H" "&H") ++ "&\x7d"

/-- ass_highlight.py lines 66-75: the rendered line for a chunk with the
`j`-th word highlighted; each word is `escape_ass_text(w["word"].strip())`. -/
def highlightLineText (chunk : List WordToken) (j : Nat) : String :=
  String.intercalate " " (chunk.enum.map fun kw =>
    let t := escape_ass_text (pyStrip (kw.2.word.getD ""))
    if kw.1 = j then highlightWordMarkup t else t)

/-- ass_highlight.py lines 52-60: the chunk's display span — same raw times as
`chunkTimes`, with the 0.5 s floor on the end. -/
def chunkLineSpan (seg : Segment) (chunk : List WordToken) : ℚ × ℚ :=
  let p := chunkTimes seg chunk
  if p.2 - p.1 < 1/2 then (p.1, p.1 + 1/2) else p

/-- The `for j, word_info in enumerate(current_words_in_line)` loop of
ass_highlight.py lines 62-77, with `j` threaded explicitly. -/
def highlightEventsAux (lineStart : ℚ) (chunk : List WordToken) (j : Nat) :
    List WordToken → List AssEvent
  | [] => []
  | w :: rest =>
    let wStart := w.start.getD lineStart
    { start := wStart, stop := w.stop.getD (wStart + 3/10),
      text := highlightLineText chunk j } ::
      highlightEventsAux lineStart chunk (j + 1) rest

/-- ass_highlight.py lines 62-77: one `Dialogue:` event per word of the chunk;
the event's own times are `word_info.get("start", line_start)` and
`word_info.get("end", word_start + 0.3)`; its text is the chunk with the
`j`-th word highlighted. -/
def chunkHighlightEvents (lineStart : ℚ) (chunk : List WordToken) : List AssEvent :=
  highlightEventsAux lineStart chunk 0 chunk

/-- ass_highlight.py lines 96-113: the fallback loop for a segment without
word tokens — one plain event per chunk of raw words, with the 0.5 s floor
(no 3.0 s cap and no final guard here, unlike `create_srt_file`). -/
def fallbackHighlightEvents (segStart segDur : ℚ) (n : Nat)
    (ws : List String) : List AssEvent :=
  (pyRange n WORDS_PER_LINE).filterMap fun i =>
    let chunk := (ws.drop i).take WORDS_PER_LINE
    if chunk = [] then none
    else
      let k := chunk.length
      let s := segStart + ((i : ℚ) / (n : ℚ)) * segDur
      let e := segStart + (((i + k : Nat) : ℚ) / (n : ℚ)) * segDur
      let e1 := if e - s < 1/2 then s + 1/2 else e
      some { start := s, stop := e1,
             text := String.intercalate " " (chunk.map escape_ass_text) }

/-- ass_highlight.py lines 84-95: the fallback time base (same repair of a
non-positive segment duration as in `create_srt_file`). -/
def segmentFallbackHighlight (seg : Segment) : List AssEvent :=
  let originalText := pyStrip (seg.text.getD "")
  let ws := pySplit originalText
  let n := ws.length
  if n = 0 then []
  else
    let segStart := seg.start.getD 0
    let segEnd := seg.stop.getD (segStart + (1/5) * (n : ℚ))
    let d0 := segEnd - segStart
    let segDur :=
      if d0 ≤ 0 then (if (1/5 : ℚ) * (n : ℚ) ≤ 0 then 1/2 else (1/5) * (n : ℚ)) else d0
    fallbackHighlightEvents segStart segDur n ws

/-- ass_highlight.py lines 39-113: the events produced for one segment
(word path when `"words" in segment and segment["words"]`, else fallback). -/
def segmentHighlightEvents (seg : Segment) : List AssEvent :=
  match seg.words with
  | some ws =>
    if ws ≠ [] then
      ((wordLineChunks [] ws).map fun chunk =>
        chunkHighlightEvents (chunkLineSpan seg chunk).1 chunk).flatten
    else segmentFallbackHighlight seg
  | none => segmentFallbackHighlight seg

/-- ass_highlight.py `generate_ass_highlight`: the full event list of the
highlight track. -/
def generate_ass_highlight (segs : List Segment) : List AssEvent :=
  (segs.map segmentHighlightEvents).flatten

/-- Decoding a string under ASS escape rules: a backslash escapes the
character after it; a bare character stands for itself.
Modelled from the spec: the escaping function must satisfy
`decode (escape t) = t` ("decoding escape_ass_text(t) under ASS escape rules
yields t"); the repository has no decoder of its own. -/
def unescapeAssChars : List Char → List Char
  | [] => []
  | '\\' :: c :: rest => c :: unescapeAssChars rest
  | c :: rest => c :: unescapeAssChars rest

/-- String version of `unescapeAssChars`. -/
def unescapeAss (s : String) : String :=
  String.mk (unescapeAssChars s.data)

/-! ### Predicates used by the claims -/

/-- `coversFrom s e ivs`: the intervals `ivs`, in order, tile `[s, e)` with no
gap and no overlap — the first starts at `s`, each further one starts where
its predecessor stopped, the last stops at `e`, and none runs backwards. -/
def coversFrom (s e : ℚ) : List (ℚ × ℚ) → Prop
  | [] => s = e
  | iv :: rest => iv.1 = s ∧ iv.1 ≤ iv.2 ∧ coversFrom iv.2 e rest

/-- The spacing two consecutive word tokens need so that the 0.3 s floor of
`create_word_level_srt` cannot push the first cue past the second's start:
the successor starts no earlier than the predecessor's end, nor earlier than
0.3 s after the predecessor's start. -/
def tokenGap (w w' : WordToken) : Prop :=
  w.stop.getD 0 ≤ w'.start.getD 0 ∧ w.start.getD 0 + 3/10 ≤ w'.start.getD 0

/-- All word tokens of a transcript in order (a segment without the
`"words"` key contributes none), the order `create_word_level_srt` visits
them in. -/
def flatTokens (segs : List Segment) : List WordToken :=
  (segs.map fun s => s.words.getD []).flatten

/-- Some segment carries a word token lacking `"word"`, `"start"` or
`"end"`. -/
def hasMalformedWordToken (segs : List Segment) : Bool :=
  segs.any fun s => (s.words.getD []).any fun w =>
    w.word.isNone || w.start.isNone || w.stop.isNone

/-! ### Concrete inputs used by the claims -/

/-- The word-timed segment of the spec's first scenario:
`{start:0, end:4, words:[{"Hi",0,0.4},{"there",0.4,0.9},{"friend",0.9,1.5}]}`. -/
def scenarioWordSeg : Segment :=
  { words := some [⟨some "Hi", some 0, some (2/5)⟩,
      ⟨some "there", some (2/5), some (9/10)⟩,
      ⟨some "friend", some (9/10), some (3/2)⟩],
    text := some " Hi there friend", start := some 0, stop := some 4 }

/-- The fallback segment of the spec's second scenario:
text `"The sky is blue today"`, span 0 – 2.4 s, no word tokens. -/
def scenarioFallbackSeg : Segment :=
  { words := none, text := some "The sky is blue today",
    start := some 0, stop := some (12/5) }

/-- A segment whose single word token spans 0 – 0.2 s, shorter than the
0.5 s line minimum. -/
def shortWordSeg : Segment :=
  { words := some [⟨some "hi", some 0, some (1/5)⟩],
    text := none, start := some 0, stop := some 1 }

/-- Two abutting well-formed word tokens, the first shorter than 0.3 s. -/
def closeWordsSeg : Segment :=
  { words := some [⟨some "a", some 0, some (1/10)⟩,
      ⟨some "b", some (1/10), some (1/2)⟩],
    text := none, start := some 0, stop := some (1/2) }

/-- Two well-spaced well-formed word tokens (0.5 s apart, no overlap). -/
def spacedWordsSeg : Segment :=
  { words := some [⟨some "a", some 0, some (1/2)⟩,
      ⟨some "b", some (1/2), some 1⟩],
    text := none, start := some 0, stop := some 1 }

/-- A transcript segment whose second word token lacks the `"start"` key. -/
def missingStartSeg : Segment :=
  { words := some [⟨some "Hi", some 0, some (2/5)⟩, ⟨some "oops", none, some 1⟩],
    text := none, start := some 0, stop := some 2 }

/-- A transcript segment whose trailing word token lacks the `"word"` key. -/
def missingWordSeg : Segment :=
  { words := some [⟨some "Hi", some 0, some (2/5)⟩, ⟨none, some (2/5), some (9/10)⟩],
    text := none, start := some 0, stop := some 2 }

/-- A two-turn demo script. -/
def demoScript : List DialogueTurn :=
  [⟨"Peter", "Hello"⟩, ⟨"Stewie", "Hi"⟩]

/-- A chunk of two abutting word tokens whose natural span is 1 s. -/
def abutChunk : List WordToken :=
  [⟨some "a", some 0, some (1/4)⟩, ⟨some "b", some (1/4), some 1⟩]

/-- A segment carrying `abutChunk` as its word list. -/
def abutSeg : Segment :=
  { words := some abutChunk, text := none, start := some 0, stop := some 1 }

/-! ### Theorems -/

/-- Claim C1: on the spec's word-timed scenario (segment 0–4 s with tokens
"Hi" 0–0.4, "there" 0.4–0.9, "friend" 0.9–1.5, chunk size 2) the line
builder emits exactly cue 1 = 0.00–0.90 "Hi there" and
cue 2 = 0.90–1.50 "friend" (natural span 0.6 s ≥ 0.5 s, so no extension). -/
theorem claim_C1 :
    create_srt_file [scenarioWordSeg] =
      [⟨1, 0, 9/10, "Hi there"⟩, ⟨2, 9/10, 3/2, "friend"⟩] := by
  norm_num [create_srt_file, scenarioWordSeg, segmentLineEntries, wordLineChunks,
    WORDS_PER_LINE, lineEntryOfChunk, chunkTimes, chunkText, addIndices]
  decide

/-- Claim C6, counterexample: on the fallback scenario (text
"The sky is blue today", 0–2.4 s, chunk size 2) the line builder does NOT
emit three cues of 0.8 s starting at 0.0, 0.8 and 1.6 as claimed. -/
theorem claim_C6_counterexample :
    create_srt_file [scenarioFallbackSeg] ≠
      [⟨1, 0, 4/5, "The sky"⟩, ⟨2, 4/5, 8/5, "is blue"⟩, ⟨3, 8/5, 12/5, "today"⟩] := by
  have hstrip : pyStrip "The sky is blue today" = "The sky is blue today" := by decide
  have hsplit : pySplit "The sky is blue today" = ["The", "sky", "is", "blue", "today"] := by
    decide
  norm_num [create_srt_file, scenarioFallbackSeg, segmentLineEntries, fallbackSegmentEntries,
    hstrip, hsplit, fallbackEntries, pyRange, WORDS_PER_LINE, addIndices, List.range_succ]

/-- Claim C6, amended: the spans are proportional to chunk word count
(2, 2 and 1 of the 5 words), not equal: cue 1 = 0.00–0.96 "The sky",
cue 2 = 0.96–1.92 "is blue", cue 3 = 1.92–2.42 "today" (the last extended
from the natural 0.48 s to the 0.5 s minimum). -/
theorem claim_C6 :
    create_srt_file [scenarioFallbackSeg] =
      [⟨1, 0, 24/25, "The sky"⟩, ⟨2, 24/25, 48/25, "is blue"⟩,
        ⟨3, 48/25, 121/50, "today"⟩] := by
  have hstrip : pyStrip "The sky is blue today" = "The sky is blue today" := by decide
  have hsplit : pySplit "The sky is blue today" = ["The", "sky", "is", "blue", "today"] := by
    decide
  norm_num [create_srt_file, scenarioFallbackSeg, segmentLineEntries, fallbackSegmentEntries,
    hstrip, hsplit, fallbackEntries, pyRange, WORDS_PER_LINE, addIndices, List.range_succ]
  decide

/-- Claim C8: `escape_ass_text` escapes braces first and doubles backslashes
afterwards, destroying its own escapes — on input consisting of a single
open brace it emits backslash-backslash-brace, which decodes under ASS
escape rules to backslash-brace, not to the original text; the brace is
left standing as a markup opener.  The round-trip property fails. -/
theorem claim_C8 :
    escape_ass_text "\x7b" = "\\\\\x7b" ∧
      unescapeAss (escape_ass_text "\x7b") ≠ "\x7b" := by decide

/-- Claim C7, counterexample: a transcript whose second token lacks
`"start"` makes `create_word_level_srt` raise a `KeyError` (modelled as
`none`) instead of skipping it, and a transcript whose trailing token lacks
`"word"` makes `create_srt_file` emit no cue at all, silently dropping the
preceding well-formed token. -/
theorem claim_C7_counterexample :
    create_word_level_srt [missingStartSeg] = none ∧
      create_srt_file [missingWordSeg] = [] := by
  constructor
  · norm_num [create_word_level_srt, wordLevelEntriesList, segmentWordEntries,
      wordEntriesList, wordEntry, missingStartSeg]
  · norm_num [create_srt_file, segmentLineEntries, wordLineChunks, WORDS_PER_LINE,
      missingWordSeg, addIndices]

/-- Claim C4, counterexample: for tokens "a" 0–0.1 and "b" 0.1–0.5 the
0.3 s floor extends the first word cue to 0–0.3 while the second still
starts at 0.1, so adjacent word cues overlap. -/
theorem claim_C4_counterexample :
    create_word_level_srt [closeWordsSeg] =
        some [⟨1, 0, 3/10, "a"⟩, ⟨2, 1/10, 1/2, "b"⟩] ∧
      ¬ List.Chain' (fun c c' : Cue => c.stop ≤ c'.start)
        [⟨1, 0, 3/10, "a"⟩, ⟨2, 1/10, 1/2, "b"⟩] := by
  constructor
  · norm_num [create_word_level_srt, wordLevelEntriesList, segmentWordEntries,
      wordEntriesList, wordEntry, closeWordsSeg, addIndices]
    decide
  · intro h
    have := List.chain'_cons.mp h
    norm_num at this

/-- Claim C3, counterexample: for a single token "hi" 0–0.2 the line cue is
extended to 0–0.5, but the single highlight event keeps the token's own
0–0.2 span — the events are not extended to the chunk minimum and do not
partition the line cue's interval. -/
theorem claim_C3_counterexample :
    create_srt_file [shortWordSeg] = [⟨1, 0, 1/2, "hi"⟩] ∧
      (generate_ass_highlight [shortWordSeg]).map (fun e => (e.start, e.stop)) =
        [(0, 1/5)] ∧
      ¬ coversFrom 0 (1/2) [(0, 1/5)] := by
  refine ⟨?_, ?_, ?_⟩
  · norm_num [create_srt_file, shortWordSeg, segmentLineEntries, wordLineChunks,
      WORDS_PER_LINE, lineEntryOfChunk, chunkTimes, chunkText, addIndices]
    decide
  · norm_num [generate_ass_highlight, shortWordSeg, segmentHighlightEvents, wordLineChunks,
      WORDS_PER_LINE, chunkLineSpan, chunkTimes, chunkHighlightEvents, highlightEventsAux]
    simp
    norm_num [highlightEventsAux]
  · intro h
    have := h.2.2
    norm_num [coversFrom] at this

/-- The running index attached by `addIndices` counts up from its seed. -/
theorem addIndices_index_spec (es : List Entry) : ∀ k : Nat,
    (addIndices k es).map (fun c => c.index) = List.range' k (addIndices k es).length := by
  induction es with
  | nil => intro k; simp [addIndices]
  | cons e es ih => intro k; simp [addIndices, List.range', ih (k + 1)]

/-- The running index attached by `charCuesAux` counts up from its seed. -/
theorem charCuesAux_index_spec (l : List CharacterSegment) : ∀ k : Nat,
    (charCuesAux k l).map (fun c => c.index) = List.range' k (charCuesAux k l).length := by
  induction l with
  | nil => intro k; simp [charCuesAux]
  | cons s l ih => intro k; simp [charCuesAux, List.range', ih (k + 1)]

/-- The running index attached by `charSrtFileAux` counts up from its seed. -/
theorem charSrtFileAux_index_spec (segs : List Segment) :
    ∀ (ts : List DialogueTurn) (k : Nat),
    (charSrtFileAux k segs ts).map (fun c => c.index) =
      List.range' k (charSrtFileAux k segs ts).length := by
  induction segs with
  | nil => intro ts k; simp [charSrtFileAux]
  | cons s segs ih =>
    intro ts k
    cases ts with
    | nil => simp [charSrtFileAux]
    | cons t ts => simp [charSrtFileAux, List.range', ih ts (k + 1)]

/-- Claim C9: within each emitted track — line cues, word cues (when the
builder does not raise), and both character-attribution builders — the cue
indices are exactly the contiguous ascending integers 1, 2, 3, ... -/
theorem claim_C9 (segs : List Segment) (script : List DialogueTurn)
    (csegs : List CharacterSegment) (cues : List Cue) :
    (create_srt_file segs).map (fun c => c.index) =
        List.range' 1 (create_srt_file segs).length ∧
      (create_word_level_srt segs = some cues →
        cues.map (fun c => c.index) = List.range' 1 cues.length) ∧
      (create_character_srt_from_segments csegs).map (fun c => c.index) =
        List.range' 1 (create_character_srt_from_segments csegs).length ∧
      (create_character_srt_file segs script).map (fun c => c.index) =
        List.range' 1 (create_character_srt_file segs script).length := by
  refine ⟨addIndices_index_spec _ 1, ?_, charCuesAux_index_spec _ 1,
    charSrtFileAux_index_spec _ _ 1⟩
  intro h
  unfold create_word_level_srt at h
  cases hw : wordLevelEntriesList segs with
  | none => rw [hw] at h; simp at h
  | some es => rw [hw] at h; simp at h; rw [← h]; exact addIndices_index_spec _ 1



/-- Fallback attribution emits one cue per positional segment-turn pair. -/
theorem charSrtFileAux_length (segs : List Segment) :
    ∀ (ts : List DialogueTurn) (k : Nat),
    (charSrtFileAux k segs ts).length = min segs.length ts.length := by
  induction segs with
  | nil => intro ts k; simp [charSrtFileAux]
  | cons s segs ih =>
    intro ts k
    cases ts with
    | nil => simp [charSrtFileAux]
    | cons t ts => simp [charSrtFileAux, ih ts (k + 1), Nat.succ_min_succ]

/-- The `i`-th fallback-attribution cue carries the `i`-th segment's times
(with defaults) and the `i`-th turn's actor. -/
theorem charSrtFileAux_getElem? (segs : List Segment) :
    ∀ (ts : List DialogueTurn) (k i : Nat) (seg : Segment) (t : DialogueTurn),
    segs[i]? = some seg → ts[i]? = some t →
    (charSrtFileAux k segs ts)[i]? =
      some ⟨k + i, seg.start.getD 0, seg.stop.getD (seg.start.getD 0 + 1), t.actor⟩ := by
  induction segs with
  | nil => intro ts k i seg t hs ht; simp at hs
  | cons s segs ih =>
    intro ts k i seg t hs ht
    cases ts with
    | nil => simp at ht
    | cons u ts =>
      cases i with
      | zero =>
        simp at hs ht
        subst hs; subst ht
        simp [charSrtFileAux]
      | succ i =>
        simp at hs ht
        have := ih ts (k + 1) i seg t hs ht
        simp [charSrtFileAux, this]
        omega

/-- Claim C10: the positional-pairing attribution builder emits exactly
`min(segments, turns)` cues; the `i`-th carries the `i`-th segment's start
and end (defaulting start to 0 and end to start + 1 when the keys are
absent) and the `i`-th turn's actor; surplus items contribute nothing. -/
theorem claim_C10 (segs : List Segment) (script : List DialogueTurn) :
    (create_character_srt_file segs script).length = min segs.length script.length ∧
      ∀ (i : Nat) (seg : Segment) (t : DialogueTurn),
        segs[i]? = some seg → script[i]? = some t →
        (create_character_srt_file segs script)[i]? =
          some ⟨i + 1, seg.start.getD 0, seg.stop.getD (seg.start.getD 0 + 1), t.actor⟩ := by
  refine ⟨charSrtFileAux_length _ _ 1, ?_⟩
  intro i seg t hs ht
  have := charSrtFileAux_getElem? segs script 1 i seg t hs ht
  rwa [Nat.add_comm 1 i] at this

/-- Witness for C10: one transcript segment paired against a two-turn
script yields exactly one cue, for the first turn's actor. -/
theorem claim_C10_witness :
    (create_character_srt_file [shortWordSeg] demoScript).length = 1 ∧
      (create_character_srt_file [shortWordSeg] demoScript)[0]? =
        some ⟨1, 0, 1, "Peter"⟩ := by
  have h := claim_C10 [shortWordSeg] demoScript
  refine ⟨by simpa using h.1, ?_⟩
  have := h.2 0 shortWordSeg ⟨"Peter", "Hello"⟩ rfl rfl
  simpa [shortWordSeg] using this

/-- With every duration probe succeeding (non-zero), the audio-timing walk
emits one segment per turn, each spanning the running clock. -/
theorem segmentsFromAudioAux_spec (ds : List ℚ) :
    ∀ (ts : List DialogueTurn) (c : ℚ),
    ds.length = ts.length → (∀ d ∈ ds, d ≠ 0) →
    (segmentsFromAudioAux c (ds.map some) ts).length = ts.length ∧
      ∀ (i : Nat) (t : DialogueTurn), ts[i]? = some t →
        (segmentsFromAudioAux c (ds.map some) ts)[i]? =
          some ⟨c + (ds.take i).sum, c + (ds.take (i + 1)).sum, t.actor, t.line⟩ := by
  induction ds with
  | nil =>
    intro ts c hlen hpos
    cases ts with
    | nil => refine ⟨rfl, ?_⟩; intro i t ht; simp at ht
    | cons t ts => simp at hlen
  | cons d ds ih =>
    intro ts c hlen hpos
    cases ts with
    | nil => simp at hlen
    | cons t ts =>
      have hd : d ≠ 0 := hpos d (by simp)
      have hrest : ∀ x ∈ ds, x ≠ 0 := fun x hx => hpos x (by simp [hx])
      have hlen' : ds.length = ts.length := by simpa using hlen
      obtain ⟨ihlen, ihget⟩ := ih ts (c + d) hlen' hrest
      have hunf : segmentsFromAudioAux c (some d :: ds.map some) (t :: ts) =
          ⟨c, c + d, t.actor, t.line⟩ :: segmentsFromAudioAux (c + d) (ds.map some) ts := by
        simp [segmentsFromAudioAux, hd]
      refine ⟨?_, ?_⟩
      · simp only [List.map_cons, hunf, List.length_cons, ihlen]
      intro i u hu
      cases i with
      | zero =>
        simp at hu
        subst hu
        simp only [List.map_cons, hunf, List.getElem?_cons_zero]
        simp
      | succ i =>
        simp at hu
        have hg := ihget i u hu
        simp only [List.map_cons, hunf, List.getElem?_cons_succ, hg,
          List.take_succ_cons, List.sum_cons]
        simp [add_assoc]

/-- Claim C2: when all N per-turn durations are obtainable (the probe
returns a positive value for each), the attribution builder produces
exactly N CharacterSegments in turn order, the i-th spanning
`[sum d_1..d_i-1, sum d_1..d_i)` with the i-th turn's actor as speaker. -/
theorem claim_C2 (ds : List ℚ) (script : List DialogueTurn)
    (hlen : ds.length = script.length) (hpos : ∀ d ∈ ds, 0 < d) :
    (create_segments_from_audio_files (ds.map some) script).length = script.length ∧
      ∀ (i : Nat) (t : DialogueTurn), script[i]? = some t →
        (create_segments_from_audio_files (ds.map some) script)[i]? =
          some ⟨(ds.take i).sum, (ds.take (i + 1)).sum, t.actor, t.line⟩ := by
  have h := segmentsFromAudioAux_spec ds script 0 hlen (fun d hd => ne_of_gt (hpos d hd))
  refine ⟨h.1, ?_⟩
  intro i t ht
  have := h.2 i t ht
  simpa using this

/-- Witness for C2 with durations 1 s and 2 s: two segments, the second
spanning `[1, 3)` with the second turn's actor. -/
theorem claim_C2_witness :
    (create_segments_from_audio_files [some 1, some 2] demoScript).length = 2 ∧
      (create_segments_from_audio_files [some 1, some 2] demoScript)[1]? =
        some ⟨1, 3, "Stewie", "Hi"⟩ := by
  have h := claim_C2 [1, 2] demoScript rfl (by norm_num)
  refine ⟨by simpa using h.1, ?_⟩
  have := h.2 1 ⟨"Stewie", "Hi"⟩ rfl
  norm_num at this
  simpa using this



/-- Every word-path line cue lasts at least 0.5 s. -/
theorem lineEntry_minDur (seg : Segment) (chunk : List WordToken) :
    1/2 ≤ (lineEntryOfChunk seg chunk).stop - (lineEntryOfChunk seg chunk).start := by
  dsimp [lineEntryOfChunk]
  split_ifs with h <;> linarith

/-- Every fallback-path line cue lasts at least 0.5 s. -/
theorem fallbackEntries_minDur (segStart segDur : ℚ) (n : Nat) (ws : List String) :
    ∀ e ∈ fallbackEntries segStart segDur n ws, 1/2 ≤ e.stop - e.start := by
  intro e he
  unfold fallbackEntries at he
  rw [List.mem_filterMap] at he
  obtain ⟨i, _, heq⟩ := he
  by_cases hc : (ws.drop i).take WORDS_PER_LINE = []
  · simp [hc] at heq
  · simp only [hc, if_false, Option.some.injEq] at heq
    subst heq
    dsimp
    split_ifs <;> linarith

/-- Every cue of the fallback segment path lasts at least 0.5 s. -/
theorem fallbackSegmentEntries_minDur (seg : Segment) :
    ∀ e ∈ fallbackSegmentEntries seg, 1/2 ≤ e.stop - e.start := by
  intro e he
  unfold fallbackSegmentEntries at he
  dsimp at he
  split at he
  · simp at he
  · exact fallbackEntries_minDur _ _ _ _ e he

/-- Every line cue emitted for a segment lasts at least 0.5 s. -/
theorem segmentLineEntries_minDur (seg : Segment) :
    ∀ e ∈ segmentLineEntries seg, 1/2 ≤ e.stop - e.start := by
  intro e he
  unfold segmentLineEntries at he
  cases hw : seg.words with
  | none => rw [hw] at he; exact fallbackSegmentEntries_minDur seg e he
  | some ws =>
    rw [hw] at he
    by_cases hne : ws = []
    · simp only [hne, ne_eq, not_true_eq_false, if_false] at he
      exact fallbackSegmentEntries_minDur seg e he
    · simp only [ne_eq, hne, not_false_eq_true, if_true] at he
      rw [List.mem_map] at he
      obtain ⟨chunk, _, rfl⟩ := he
      exact lineEntry_minDur seg chunk

/-- Index attachment preserves each cue body's start and stop. -/
theorem addIndices_times (es : List Entry) : ∀ (k : Nat), ∀ c ∈ addIndices k es,
    ∃ e ∈ es, c.start = e.start ∧ c.stop = e.stop := by
  induction es with
  | nil => intro k c hc; simp [addIndices] at hc
  | cons e es ih =>
    intro k c hc
    rw [addIndices, List.mem_cons] at hc
    rcases hc with rfl | hc
    · exact ⟨e, by simp, rfl, rfl⟩
    · obtain ⟨e', he', h1, h2⟩ := ih (k + 1) c hc
      exact ⟨e', by simp [he'], h1, h2⟩

/-- Every emitted word cue lasts at least 0.3 s. -/
theorem wordEntry_minDur (w : WordToken) (e : Entry) (h : wordEntry w = some e) :
    3/10 ≤ e.stop - e.start := by
  rcases w with ⟨word, ws, wstop⟩
  cases word <;> cases ws <;> cases wstop <;> simp [wordEntry] at h
  subst h
  dsimp
  split_ifs <;> linarith

/-- All word cues of one token list last at least 0.3 s. -/
theorem wordEntriesList_minDur (ws : List WordToken) : ∀ (es : List Entry),
    wordEntriesList ws = some es → ∀ e ∈ es, 3/10 ≤ e.stop - e.start := by
  induction ws with
  | nil => intro es h e he; simp [wordEntriesList] at h; subst h; simp at he
  | cons w ws ih =>
    intro es h e he
    rw [wordEntriesList] at h
    cases hw : wordEntry w <;> rw [hw] at h
    · simp at h
    · cases hrest : wordEntriesList ws <;> rw [hrest] at h
      · simp at h
      · simp at h
        subst h
        rcases List.mem_cons.mp he with rfl | he'
        · exact wordEntry_minDur w e hw
        · exact ih _ hrest e he'

/-- All word cues of a transcript last at least 0.3 s. -/
theorem wordLevelEntriesList_minDur (segs : List Segment) : ∀ (es : List Entry),
    wordLevelEntriesList segs = some es → ∀ e ∈ es, 3/10 ≤ e.stop - e.start := by
  induction segs with
  | nil => intro es h e he; simp [wordLevelEntriesList] at h; subst h; simp at he
  | cons s ss ih =>
    intro es h e he
    rw [wordLevelEntriesList] at h
    cases hs : segmentWordEntries s <;> rw [hs] at h
    · simp at h
    · cases hrest : wordLevelEntriesList ss <;> rw [hrest] at h
      · simp at h
      · simp at h
        subst h
        rcases List.mem_append.mp he with h1 | h2
        · unfold segmentWordEntries at hs
          cases hw : s.words <;> rw [hw] at hs
          · simp at hs; subst hs; simp at h1
          · exact wordEntriesList_minDur _ _ hs e h1
        · exact ih _ hrest e h2

/-- Claim C5: every cue of the line-subtitle track lasts at least 0.5 s,
and every cue of the word-subtitle track (when produced) at least 0.3 s. -/
theorem claim_C5 (segs : List Segment) (cues : List Cue) :
    (∀ c ∈ create_srt_file segs, 1/2 ≤ c.stop - c.start) ∧
      (create_word_level_srt segs = some cues →
        ∀ c ∈ cues, 3/10 ≤ c.stop - c.start) := by
  constructor
  · intro c hc
    obtain ⟨e, he, h1, h2⟩ := addIndices_times _ 1 c hc
    rw [List.mem_flatten] at he
    obtain ⟨l, hl, hel⟩ := he
    rw [List.mem_map] at hl
    obtain ⟨seg, _, rfl⟩ := hl
    rw [h1, h2]
    exact segmentLineEntries_minDur seg e hel
  · intro h c hc
    unfold create_word_level_srt at h
    cases hw : wordLevelEntriesList segs <;> rw [hw] at h
    · simp at h
    · simp at h
      subst h
      obtain ⟨e, he, h1, h2⟩ := addIndices_times _ 1 c hc
      rw [h1, h2]
      exact wordLevelEntriesList_minDur segs _ hw e he

/-- Witness for C5 on a transcript whose single token is shorter than both
floors. -/
theorem claim_C5_witness :
    (∀ c ∈ create_srt_file [shortWordSeg], 1/2 ≤ c.stop - c.start) ∧
      (∀ c ∈ ([⟨1, 0, 3/10, "hi"⟩] : List Cue), 3/10 ≤ c.stop - c.start) := by
  refine ⟨(claim_C5 [shortWordSeg] []).1, ?_⟩
  refine (claim_C5 [shortWordSeg] [⟨1, 0, 3/10, "hi"⟩]).2 ?_
  norm_num [create_word_level_srt, wordLevelEntriesList, segmentWordEntries,
    wordEntriesList, wordEntry, shortWordSeg, addIndices]
  decide



/-- Witness for C9 at concrete inputs, with the word-track hypothesis
discharged by evaluation. -/
theorem claim_C9_witness :
    (create_srt_file [scenarioWordSeg]).map (fun c => c.index) =
        List.range' 1 (create_srt_file [scenarioWordSeg]).length ∧
      ([⟨1, 0, 2/5, "Hi"⟩, ⟨2, 2/5, 9/10, "there"⟩, ⟨3, 9/10, 3/2, "friend"⟩] :
          List Cue).map (fun c => c.index) =
        List.range' 1 ([⟨1, 0, 2/5, "Hi"⟩, ⟨2, 2/5, 9/10, "there"⟩,
          ⟨3, 9/10, 3/2, "friend"⟩] : List Cue).length ∧
      (create_character_srt_from_segments []).map (fun c => c.index) =
        List.range' 1 (create_character_srt_from_segments []).length ∧
      (create_character_srt_file [scenarioWordSeg] demoScript).map (fun c => c.index) =
        List.range' 1 (create_character_srt_file [scenarioWordSeg] demoScript).length := by
  have h := claim_C9 [scenarioWordSeg] demoScript []
    [⟨1, 0, 2/5, "Hi"⟩, ⟨2, 2/5, 9/10, "there"⟩, ⟨3, 9/10, 3/2, "friend"⟩]
  refine ⟨h.1, h.2.1 ?_, h.2.2.1, h.2.2.2⟩
  norm_num [create_word_level_srt, wordLevelEntriesList, segmentWordEntries,
    wordEntriesList, wordEntry, scenarioWordSeg, addIndices]
  decide

/-- A token lacking any required key makes `wordEntry` raise. -/
theorem wordEntry_isNone (w : WordToken)
    (h : w.word.isNone || w.start.isNone || w.stop.isNone) : wordEntry w = none := by
  rcases w with ⟨word, ws, wstop⟩
  cases word <;> cases ws <;> cases wstop <;> simp [wordEntry]
  simp at h

/-- A malformed token anywhere in the list makes the word loop raise. -/
theorem wordEntriesList_malformed (ws : List WordToken)
    (h : ws.any (fun w => w.word.isNone || w.start.isNone || w.stop.isNone)) :
    wordEntriesList ws = none := by
  induction ws with
  | nil => simp at h
  | cons w ws ih =>
    rw [List.any_cons] at h
    rw [wordEntriesList]
    rcases Bool.or_eq_true_iff.mp h with hw | hrest
    · rw [wordEntry_isNone w hw]
    · rw [ih hrest]
      cases wordEntry w <;> rfl

/-- A malformed token anywhere in the transcript makes the track raise. -/
theorem wordLevelEntriesList_malformed (segs : List Segment)
    (h : hasMalformedWordToken segs) : wordLevelEntriesList segs = none := by
  induction segs with
  | nil => simp [hasMalformedWordToken] at h
  | cons s ss ih =>
    rw [hasMalformedWordToken, List.any_cons] at h
    rw [wordLevelEntriesList]
    rcases Bool.or_eq_true_iff.mp h with hs | hrest
    · have hsome : ∃ ws, s.words = some ws ∧
          ws.any (fun w => w.word.isNone || w.start.isNone || w.stop.isNone) := by
        cases hw : s.words with
        | none => rw [hw] at hs; simp at hs
        | some ws => rw [hw] at hs; exact ⟨ws, rfl, hs⟩
      obtain ⟨ws, hws, hbad⟩ := hsome
      rw [show segmentWordEntries s = none by
        rw [segmentWordEntries, hws]; exact wordEntriesList_malformed ws hbad]
    · rw [ih hrest]
      cases segmentWordEntries s <;> rfl

/-- Tokens lacking the `"word"` key never reach an emitted line chunk. -/
theorem wordLineChunks_word_isSome (ws : List WordToken) :
    ∀ (cur : List WordToken), (∀ w ∈ cur, w.word ≠ none) →
    ∀ chunk ∈ wordLineChunks cur ws, ∀ w ∈ chunk, w.word ≠ none := by
  induction ws with
  | nil => intro cur _ chunk hchunk; simp [wordLineChunks] at hchunk
  | cons w ws ih =>
    intro cur hcur chunk hchunk u hu
    rw [wordLineChunks] at hchunk
    by_cases hword : w.word = none
    · rw [if_pos hword] at hchunk
      exact ih cur hcur chunk hchunk u hu
    · rw [if_neg hword] at hchunk
      dsimp only at hchunk
      have hcur2 : ∀ x ∈ cur ++ [w], x.word ≠ none := by
        intro x hx
        rcases List.mem_append.mp hx with h1 | h2
        · exact hcur x h1
        · simp at h2; subst h2; exact hword
      by_cases hflush : (cur ++ [w]).length = WORDS_PER_LINE ∨ ws = []
      · rw [if_pos hflush] at hchunk
        rcases List.mem_cons.mp hchunk with rfl | hch
        · exact hcur2 u hu
        · exact ih [] (by simp) chunk hch u hu
      · rw [if_neg hflush] at hchunk
        exact ih (cur ++ [w]) hcur2 chunk hchunk u hu

/-- Claim C7, amended: the line-subtitle builder skips tokens lacking
`"word"` without raising (every token of every emitted chunk has the key; a
chunk containing tokens lacking `"start"`/`"end"` falls back to segment
timing, and a trailing skipped token silently drops the pending chunk), but
the word-level builder raises on any token lacking `"word"`, `"start"` or
`"end"` instead of skipping it. -/
theorem claim_C7 (segs : List Segment) (ws : List WordToken) :
    (hasMalformedWordToken segs = true → create_word_level_srt segs = none) ∧
      ∀ chunk ∈ wordLineChunks [] ws, ∀ w ∈ chunk, w.word ≠ none := by
  constructor
  · intro h
    rw [create_word_level_srt, wordLevelEntriesList_malformed segs h]
    rfl
  · exact wordLineChunks_word_isSome ws [] (by simp)

/-- Witness for C7 on a transcript containing both malformed-token
shapes. -/
theorem claim_C7_witness :
    create_word_level_srt [missingStartSeg, missingWordSeg] = none ∧
      ∀ chunk ∈ wordLineChunks [] [⟨some "Hi", some 0, some (2/5)⟩,
        ⟨none, some (2/5), some (9/10)⟩], ∀ w ∈ chunk, w.word ≠ none := by
  have h := claim_C7 [missingStartSeg, missingWordSeg]
    [⟨some "Hi", some 0, some (2/5)⟩, ⟨none, some (2/5), some (9/10)⟩]
  exact ⟨h.1 (by decide), h.2⟩



/-- The first emitted word cue comes from the first token. -/
theorem wordEntriesList_head? (ws : List WordToken) : ∀ (es : List Entry),
    wordEntriesList ws = some es → es.head? = ws.head?.bind wordEntry := by
  induction ws with
  | nil => intro es h; simp [wordEntriesList] at h; subst h; rfl
  | cons w ws _ =>
    intro es h
    rw [wordEntriesList] at h
    cases hw : wordEntry w <;> rw [hw] at h
    · simp at h
    · cases hrest : wordEntriesList ws <;> rw [hrest] at h
      · simp at h
      · simp at h; subst h; simp [hw]

/-- A word cue keeps its token's start time unchanged. -/
theorem wordEntry_start (w : WordToken) (e : Entry) (h : wordEntry w = some e) :
    w.start = some e.start := by
  rcases w with ⟨word, ws, wstop⟩
  cases word <;> cases ws <;> cases wstop <;> simp [wordEntry] at h
  rw [← h]

/-- Tokens spaced by at least the 0.3 s floor yield non-overlapping
word-cue bodies. -/
theorem wordEntriesList_chain (ws : List WordToken) : ∀ (es : List Entry),
    wordEntriesList ws = some es → List.Chain' tokenGap ws →
    List.Chain' (fun e e' : Entry => e.stop ≤ e'.start) es := by
  induction ws with
  | nil => intro es h _; simp [wordEntriesList] at h; subst h; simp
  | cons w ws ih =>
    intro es h hchain
    rw [wordEntriesList] at h
    cases hw : wordEntry w <;> rw [hw] at h
    · simp at h
    · cases hrest : wordEntriesList ws <;> rw [hrest] at h
      · simp at h
      · simp at h
        subst h
        rw [List.chain'_cons'] at hchain ⊢
        obtain ⟨hhead, htail⟩ := hchain
        refine ⟨?_, ih _ hrest htail⟩
        intro e' he'
        rw [wordEntriesList_head? ws _ hrest] at he'
        cases hws : ws.head? with
        | none => rw [hws] at he'; simp at he'
        | some w' =>
          rw [hws] at he'
          simp at he'
          have hgap : tokenGap w w' := hhead w' hws
          rcases w with ⟨word, wstart, wstop⟩
          cases word <;> cases wstart <;> cases wstop <;> simp [wordEntry] at hw
          rw [← hw]
          have hst : w'.start = some e'.start := wordEntry_start w' e' he'
          rcases hgap with ⟨hg1, hg2⟩
          rw [hst] at hg1 hg2
          simp at hg1 hg2
          dsimp
          split_ifs with hlt
          · exact hg2
          · exact hg1

/-- Index attachment maps the head cue body to the head cue. -/
theorem addIndices_head? (es : List Entry) (k : Nat) :
    (addIndices k es).head? =
      es.head?.map (fun e => (⟨k, e.start, e.stop, e.text⟩ : Cue)) := by
  cases es <;> rfl

/-- Index attachment preserves the adjacent non-overlap chain. -/
theorem addIndices_chain (es : List Entry) : ∀ (k : Nat),
    List.Chain' (fun e e' : Entry => e.stop ≤ e'.start) es →
    List.Chain' (fun c c' : Cue => c.stop ≤ c'.start) (addIndices k es) := by
  induction es with
  | nil => intro k _; simp [addIndices]
  | cons e es ih =>
    intro k h
    rw [List.chain'_cons'] at h
    obtain ⟨hhead, htail⟩ := h
    rw [addIndices, List.chain'_cons']
    refine ⟨?_, ih (k + 1) htail⟩
    intro c hc
    rw [addIndices_head? es (k + 1)] at hc
    cases hes : es.head? with
    | none => rw [hes] at hc; simp at hc
    | some e' =>
      rw [hes] at hc
      simp at hc
      subst hc
      exact hhead e' hes

/-- The word loop distributes over list concatenation. -/
theorem wordEntriesList_append (xs : List WordToken) (ys : List WordToken) :
    wordEntriesList (xs ++ ys) =
      (wordEntriesList xs).bind
        (fun as => (wordEntriesList ys).map (fun bs => as ++ bs)) := by
  induction xs with
  | nil =>
    rw [List.nil_append]
    cases wordEntriesList ys <;> simp [wordEntriesList]
  | cons x xs ih =>
    rw [List.cons_append]
    cases hx : wordEntry x <;> cases hxs : wordEntriesList xs <;>
      cases hys : wordEntriesList ys <;>
        simp [wordEntriesList, hx, hxs, hys, ih]

/-- The word track equals the word loop run on the flattened token list. -/
theorem wordLevelEntriesList_eq_flat (segs : List Segment) :
    wordLevelEntriesList segs = wordEntriesList (flatTokens segs) := by
  induction segs with
  | nil => rfl
  | cons s ss ih =>
    rw [wordLevelEntriesList, ih]
    have hflat : flatTokens (s :: ss) = s.words.getD [] ++ flatTokens ss := by
      simp [flatTokens]
    rw [hflat, wordEntriesList_append]
    have hseg : segmentWordEntries s = wordEntriesList (s.words.getD []) := by
      rw [segmentWordEntries]
      cases s.words <;> rfl
    rw [hseg]
    cases wordEntriesList (s.words.getD []) <;>
      cases wordEntriesList (flatTokens ss) <;> simp

/-- Claim C4, amended: adjacent word cues satisfy
`cue[i].end <= cue[i+1].start` provided consecutive tokens are naturally
non-overlapping AND at least 0.3 s apart in their starts; the
minimum-duration floor only moves ends forward, never the next start, so
without that spacing adjacent cues can overlap. -/
theorem claim_C4 (segs : List Segment) (cues : List Cue)
    (h : create_word_level_srt segs = some cues)
    (hgap : List.Chain' tokenGap (flatTokens segs)) :
    List.Chain' (fun c c' : Cue => c.stop ≤ c'.start) cues := by
  rw [create_word_level_srt] at h
  cases hw : wordLevelEntriesList segs <;> rw [hw] at h
  · simp at h
  · simp at h
    subst h
    rw [wordLevelEntriesList_eq_flat] at hw
    exact addIndices_chain _ 1 (wordEntriesList_chain _ _ hw hgap)

/-- Witness for C4 on two tokens 0.5 s apart: the resulting cues do not
overlap. -/
theorem claim_C4_witness :
    List.Chain' (fun c c' : Cue => c.stop ≤ c'.start)
      [⟨1, 0, 1/2, "a"⟩, ⟨2, 1/2, 1, "b"⟩] := by
  refine claim_C4 [spacedWordsSeg] _ ?_ ?_
  · norm_num [create_word_level_srt, wordLevelEntriesList, segmentWordEntries,
      wordEntriesList, wordEntry, spacedWordsSeg, addIndices]
    decide
  · norm_num [flatTokens, spacedWordsSeg, List.chain'_cons, tokenGap]



/-- The highlight loop emits one event per chunk token. -/
theorem highlightEventsAux_length (ls : ℚ) (chunk0 : List WordToken) :
    ∀ (rest : List WordToken) (j : Nat),
    (highlightEventsAux ls chunk0 j rest).length = rest.length := by
  intro rest
  induction rest with
  | nil => intro j; rfl
  | cons w rest ih => intro j; simp [highlightEventsAux, ih (j + 1)]

/-- Each highlight event spans its own token's times (with defaults). -/
theorem highlightEventsAux_times (ls : ℚ) (chunk0 : List WordToken) :
    ∀ (rest : List WordToken) (j : Nat),
    (highlightEventsAux ls chunk0 j rest).map (fun e => (e.start, e.stop)) =
      rest.map (fun w => (w.start.getD ls, w.stop.getD (w.start.getD ls + 3/10))) := by
  intro rest
  induction rest with
  | nil => intro j; rfl
  | cons w rest ih => intro j; simp [highlightEventsAux, ih (j + 1)]

/-- Well-formed, abutting tokens tile the span from the first start to the
last stop. -/
theorem coversFrom_tokens (chunk : List WordToken) :
    ∀ (s e ls : ℚ),
    (∀ w ∈ chunk, ∃ ss ee, w.start = some ss ∧ w.stop = some ee ∧ ss ≤ ee) →
    List.Chain' (fun w w' => w.stop = w'.start) chunk →
    chunk.head?.bind (fun w => w.start) = some s →
    (chunk.getLast?).bind (fun w => w.stop) = some e →
    coversFrom s e
      (chunk.map (fun w => (w.start.getD ls, w.stop.getD (w.start.getD ls + 3/10)))) := by
  induction chunk with
  | nil => intro s e ls _ _ hs _; simp at hs
  | cons w rest ih =>
    intro s e ls hwf hchain hs hlast
    obtain ⟨ss, ee, hss, hee, hle⟩ := hwf w (by simp)
    simp only [List.head?_cons, Option.some_bind] at hs
    rw [hss] at hs
    simp at hs
    subst hs
    cases rest with
    | nil =>
      simp only [List.getLast?_singleton, Option.some_bind] at hlast
      rw [hee] at hlast
      simp at hlast
      subst hlast
      simp [coversFrom, hss, hee, hle]
    | cons w' rest' =>
      rw [List.chain'_cons] at hchain
      obtain ⟨habut, hchain'⟩ := hchain
      simp only [List.map_cons, coversFrom, hss, hee, Option.getD_some, true_and]
      refine ⟨hle, ?_⟩
      apply ih ee e ls
      · intro u hu; exact hwf u (by simp [hu])
      · exact hchain'
      · simp only [List.head?_cons, Option.some_bind]
        rw [← habut, hee]
      · rw [List.getLast?_cons_cons] at hlast
        exact hlast

/-- Claim C3, amended: for a chunk of K word tokens the highlight track
emits exactly K events, the j-th spanning the j-th token's own
`[start, end)` (never extended to the chunk minimum); the events partition
the line cue's `[start, end)` only when the tokens are well-formed and
abut exactly and the chunk's natural span already meets the 0.5 s minimum
(so the line cue is not extended past the last event). -/
theorem claim_C3 (seg : Segment) (chunk : List WordToken) (ls : ℚ) :
    (chunkHighlightEvents ls chunk).length = chunk.length ∧
      (chunkHighlightEvents ls chunk).map (fun e => (e.start, e.stop)) =
        chunk.map (fun w => (w.start.getD ls, w.stop.getD (w.start.getD ls + 3/10))) ∧
      (chunk ≠ [] →
        (∀ w ∈ chunk, ∃ ss ee, w.start = some ss ∧ w.stop = some ee ∧ ss ≤ ee) →
        List.Chain' (fun w w' => w.stop = w'.start) chunk →
        1/2 ≤ (chunk.getLastD default).stop.getD 0 - (chunk.headD default).start.getD 0 →
        chunkLineSpan seg chunk =
            ((chunk.headD default).start.getD 0, (chunk.getLastD default).stop.getD 0) ∧
          coversFrom (chunkLineSpan seg chunk).1 (chunkLineSpan seg chunk).2
            ((chunkHighlightEvents (chunkLineSpan seg chunk).1 chunk).map
              (fun e => (e.start, e.stop)))) := by
  refine ⟨highlightEventsAux_length ls chunk chunk 0,
    highlightEventsAux_times ls chunk chunk 0, ?_⟩
  intro hne hwf hchain hdur
  obtain ⟨w, rest, rfl⟩ := List.exists_cons_of_ne_nil hne
  obtain ⟨ss, hss⟩ : ∃ ss, w.start = some ss := by
    obtain ⟨ss, _, h1, _, _⟩ := hwf w (by simp); exact ⟨ss, h1⟩
  have hall : (w :: rest).all (fun u => u.start.isSome && u.stop.isSome) = true := by
    rw [List.all_eq_true]
    intro u hu
    obtain ⟨us, ue, h1, h2, _⟩ := hwf u hu
    simp [h1, h2]
  have hct : chunkTimes seg (w :: rest) =
      (((w :: rest).headD default).start.getD 0,
        ((w :: rest).getLastD default).stop.getD 0) := by
    rw [chunkTimes, if_neg]
    simp [hall]
  simp only [List.headD_cons] at hdur
  have hspan : chunkLineSpan seg (w :: rest) =
      (((w :: rest).headD default).start.getD 0,
        ((w :: rest).getLastD default).stop.getD 0) := by
    rw [chunkLineSpan, hct, if_neg]
    dsimp
    linarith
  refine ⟨hspan, ?_⟩
  rw [hspan]
  dsimp only
  unfold chunkHighlightEvents
  rw [highlightEventsAux_times]
  apply coversFrom_tokens
  · exact hwf
  · exact hchain
  · simp [hss]
  · have hne' : (w :: rest) ≠ [] := by simp
    have hgl : (w :: rest).getLast? = some ((w :: rest).getLast hne') :=
      List.getLast?_eq_getLast _ hne'
    have hgd : (w :: rest).getLastD default = (w :: rest).getLast hne' := by
      rw [List.getLastD_eq_getLast?, hgl]; rfl
    obtain ⟨ws2, we2, h1, h2, _⟩ := hwf _ (List.getLast_mem hne')
    rw [hgl, Option.some_bind, hgd, h2]
    simp



/-- Witness for C3 on two abutting tokens spanning a full second: the two
events tile the line cue exactly. -/
theorem claim_C3_witness :
    (chunkHighlightEvents 0 abutChunk).length = abutChunk.length ∧
      (chunkHighlightEvents 0 abutChunk).map (fun e => (e.start, e.stop)) =
        abutChunk.map (fun w => (w.start.getD 0, w.stop.getD (w.start.getD 0 + 3/10))) ∧
      (chunkLineSpan abutSeg abutChunk =
          ((abutChunk.headD default).start.getD 0,
            (abutChunk.getLastD default).stop.getD 0) ∧
        coversFrom (chunkLineSpan abutSeg abutChunk).1 (chunkLineSpan abutSeg abutChunk).2
          ((chunkHighlightEvents (chunkLineSpan abutSeg abutChunk).1 abutChunk).map
            (fun e => (e.start, e.stop)))) := by
  have h := claim_C3 abutSeg abutChunk 0
  refine ⟨h.1, h.2.1, h.2.2 ?_ ?_ ?_ ?_⟩
  · simp [abutChunk]
  · intro w hw
    simp [abutChunk] at hw
    rcases hw with rfl | rfl
    · exact ⟨0, 1/4, rfl, by norm_num, by norm_num⟩
    · exact ⟨1/4, 1, by norm_num, rfl, by norm_num⟩
  · simp [abutChunk, List.chain'_cons]
  · norm_num [abutChunk]

end Brainrot
